import Mathlib

/-!
# Verification of the Mitteilungsblatt scraper core

A shallow embedding, in Lean 4, of the stateful and algorithmic core of the
`mitteilungsblattscraper` repository:

* the Job Orchestrator (`src/api/services/task_manager.py`, class `TaskManager`
  and `run_sync_all_task`),
* the Edition Scanner loop and the Archive Row Parser
  (`src/core/scraper.py`, `MTBScraper.discover_editions` and
  `MTBScraper._parse_archive_table`),
* the persistence loop of discovery (`run_scraper` / repository lookups),
* item de-duplication and the fallback item extractor
  (`MTBScraper.scrape_edition`, `MTBScraper._extract_items_alternative`),
* the attachment-link filter (`MTBScraper._extract_attachments`),
* the relevance scorer's response parsing and error conversion
  (`src/core/analyzer.py`, `RelevanceAnalyzer.analyze_item` /
  `_parse_response`).

Python `datetime` values are modelled as calendar triples, strings as Lean
`String`s, the SQLAlchemy session as an explicit list of rows, and the
browser-automation layer as the list of already-rendered pages it would
deliver (each page abstracted to the cell texts of its table rows).
-/

set_option autoImplicit false

namespace MTB

/-! ## Dates

`datetime` values carry year/month/day (the scraper never sets a time of
day).  Comparison in Python is lexicographic on the fields. -/

structure MDate where
  y : Nat
  m : Nat
  d : Nat
deriving DecidableEq, Repr

/-- `a < b` on `datetime`, lexicographic on (year, month, day). -/
def MDate.ltb (a b : MDate) : Bool :=
  decide (a.y < b.y) ||
    (decide (a.y = b.y) &&
      (decide (a.m < b.m) || (decide (a.m = b.m) && decide (a.d < b.d))))

/-- `a ≤ b` on `datetime`. -/
def MDate.leb (a b : MDate) : Bool :=
  !(MDate.ltb b a)

/-- Leap-year test of the Gregorian calendar (Python `calendar.isleap`). -/
def isLeap (y : Nat) : Bool :=
  (y % 4 = 0 && y % 100 ≠ 0) || y % 400 = 0

/-- Days in a month, as `datetime` validates them. -/
def daysInMonth (y m : Nat) : Nat :=
  if m = 2 then (if isLeap y then 29 else 28)
  else if m = 4 ∨ m = 6 ∨ m = 9 ∨ m = 11 then 30
  else 31

/-- The arguments `datetime(y, m, d)` accepts without raising. -/
def validDate (y m d : Nat) : Bool :=
  decide (1 ≤ y) && decide (1 ≤ m) && decide (m ≤ 12) &&
    decide (1 ≤ d) && decide (d ≤ daysInMonth y m)

/-- The calendar day before a given day (used to model `timedelta` subtraction). -/
def MDate.prevDay (a : MDate) : MDate :=
  if 1 < a.d then ⟨a.y, a.m, a.d - 1⟩
  else if 1 < a.m then ⟨a.y, a.m - 1, daysInMonth a.y (a.m - 1)⟩
  else ⟨a.y - 1, 12, 31⟩

/-- `a - timedelta(days := n)`. -/
def MDate.subDays (a : MDate) : Nat → MDate
  | 0 => a
  | n + 1 => (MDate.subDays a n).prevDay

/-! ## The Job Orchestrator (`TaskManager`)

The mutable fields guarded by `TaskManager._lock` become a record; each
lock-protected critical section of the Python class becomes one transition
function on this record.  The worker thread's wall clock enters `add_log`
as an explicit timestamp string. -/

structure TMState where
  running : Bool
  taskName : Option String
  logs : List String
  progress : Nat
  total : Nat
  error : Option String
deriving DecidableEq, Repr

/-- The state a fresh `TaskManager()` starts in. -/
def TMState.init : TMState :=
  { running := false, taskName := none, logs := [], progress := 0,
    total := 0, error := none }

/-- `TaskManager.add_log`: append a timestamped entry, keep the last 100. -/
def add_log (st : TMState) (timestamp message : String) : TMState :=
  let logs := st.logs ++ ["[" ++ timestamp ++ "] " ++ message]
  { st with logs := if 100 < logs.length then logs.drop (logs.length - 100) else logs }

/-- `TaskManager.set_progress`. -/
def set_progress (st : TMState) (progress total : Nat) : TMState :=
  { st with progress := progress, total := if 0 < total then total else st.total }

/-- `TaskManager.start_task`'s critical section: the returned `Bool` is the
method's return value, the returned state the fields after the `with
self._lock` block. -/
def start_task (st : TMState) (name : String) : Bool × TMState :=
  if st.running then (false, st)
  else
    (true, { st with running := true, taskName := some name, progress := 0,
                     total := 0, error := none })

/-- `TaskManager._run_task` after `func` returns: `failure = none` models a
normal return, `failure = some (e, ts1, tb, ts2)` an exception with message
`e` and traceback text `tb` logged at timestamps `ts1`, `ts2`.  The
`finally` block always clears `running` and the task name. -/
def finish_task (st : TMState) (failure : Option (String × String × String × String)) :
    TMState :=
  let st :=
    match failure with
    | none => st
    | some (e, ts1, tb, ts2) =>
        let st := add_log st ts1 ("ERROR: " ++ e)
        let st := add_log st ts2 ("Traceback: " ++ tb)
        { st with error := some e }
  { st with running := false, taskName := none }

/-! ## String scanning

The scraper's regular expressions all operate on text already extracted
from HTML (`get_text(strip=True)` output).  They are modelled as explicit
left-to-right scanners over `List Char` with the same leftmost-match
semantics as `re.search`.  `\s` and `\d` are taken at their ASCII core
(the portal text is Latin). -/

/-- The characters Python's `\s` matches (ASCII core). -/
def isPySpace (c : Char) : Bool :=
  c = ' ' || c = '\t' || c = '\n' || c = '\r' || c = '\x0b' || c = '\x0c'

/-- The characters Python's `\d` matches (ASCII core). -/
def isPyDigit (c : Char) : Bool :=
  '0' ≤ c && c ≤ '9'

/-- Numeric value of a digit string, as Python `int()` reads it. -/
def natOfDigits (ds : List Char) : Nat :=
  ds.foldl (fun n c => 10 * n + (c.toNat - '0'.toNat)) 0

/-- Match a literal pattern at the head of the input, returning the rest. -/
def matchLit : List Char → List Char → Option (List Char)
  | [], s => some s
  | _ :: _, [] => none
  | p :: ps, c :: cs => if c = p then matchLit ps cs else none

/-- Does `pat` occur at the head of `s`? -/
def hasPrefixL (pat s : List Char) : Bool :=
  (matchLit pat s).isSome

/-- Python's substring test `pat in s`. -/
def containsL (pat : List Char) : List Char → Bool
  | [] => pat.isEmpty
  | c :: cs => hasPrefixL pat (c :: cs) || containsL pat cs

/-- `pat in s` on strings. -/
def containsSub (pat s : String) : Bool :=
  containsL pat.toList s.toList

/-- Match `MTB\s+(\d+)/(\d{4})` anchored at the head of the input; returns
`(stueck, year)`.  `\d+` is greedy and must be followed directly by `/`, so
it matches the maximal digit run before a `/`. -/
def mtbMatchAt (s : List Char) : Option (Nat × Nat) :=
  match matchLit "MTB".toList s with
  | none => none
  | some s1 =>
      let (sp, s2) := s1.span isPySpace
      if sp.isEmpty then none
      else
        let (ds, s3) := s2.span isPyDigit
        if ds.isEmpty then none
        else
          match s3 with
          | '/' :: y1 :: y2 :: y3 :: y4 :: _ =>
              if isPyDigit y1 && isPyDigit y2 && isPyDigit y3 && isPyDigit y4 then
                some (natOfDigits ds, natOfDigits [y1, y2, y3, y4])
              else none
          | _ => none

/-- `re.search(r'MTB\s+(\d+)/(\d{4})', ·)`: leftmost match. -/
def mtbSearch : List Char → Option (Nat × Nat)
  | [] => none
  | c :: cs =>
      match mtbMatchAt (c :: cs) with
      | some r => some r
      | none => mtbSearch cs

/-- Match `(\d{2})\.(\d{2})\.(\d{4})` anchored at the head; returns
`(day, month, year)` digit values. -/
def dateMatchAt (s : List Char) : Option (Nat × Nat × Nat) :=
  match s with
  | d1 :: d2 :: '.' :: m1 :: m2 :: '.' :: y1 :: y2 :: y3 :: y4 :: _ =>
      if isPyDigit d1 && isPyDigit d2 && isPyDigit m1 && isPyDigit m2 &&
          isPyDigit y1 && isPyDigit y2 && isPyDigit y3 && isPyDigit y4 then
        some (natOfDigits [d1, d2], natOfDigits [m1, m2],
          natOfDigits [y1, y2, y3, y4])
      else none
  | _ => none

/-- `re.search(r'(\d{2})\.(\d{2})\.(\d{4})', ·)`: leftmost match. -/
def dateSearch : List Char → Option (Nat × Nat × Nat)
  | [] => none
  | c :: cs =>
      match dateMatchAt (c :: cs) with
      | some r => some r
      | none => dateSearch cs

/-- Number of characters `MTB\s+\d+/\d{4}` consumes when matched at the head
(for recovering the matched text of the title pattern). -/
def mtbCoreLenAt (s : List Char) : Option Nat :=
  match matchLit "MTB".toList s with
  | none => none
  | some s1 =>
      let (sp, s2) := s1.span isPySpace
      if sp.isEmpty then none
      else
        let (ds, s3) := s2.span isPyDigit
        if ds.isEmpty then none
        else
          match s3 with
          | '/' :: y1 :: y2 :: y3 :: y4 :: _ =>
              if isPyDigit y1 && isPyDigit y2 && isPyDigit y3 && isPyDigit y4 then
                some (3 + sp.length + ds.length + 1 + 4)
              else none
          | _ => none

/-- Match `(?:SONDERNUMMER[^-]*-\s*)?MTB\s+\d+/\d{4}` anchored at the head,
returning the matched text.  The optional prefix is tried first (greedy
option); `[^-]*` cannot cross a `-`, so it runs to the first `-`. -/
def titleMatchAt (s : List Char) : Option (List Char) :=
  let bare :=
    match mtbCoreLenAt s with
    | some k => some (s.take k)
    | none => none
  match matchLit "SONDERNUMMER".toList s with
  | none => bare
  | some s1 =>
      let (mid, s2) := s1.span (fun c => c ≠ '-')
      match s2 with
      | '-' :: s3 =>
          let (sp, s4) := s3.span isPySpace
          match mtbCoreLenAt s4 with
          | some k =>
              some (s.take ("SONDERNUMMER".toList.length + mid.length + 1 +
                sp.length + k))
          | none => bare
      | _ => bare

/-- `re.search(r'((?:SONDERNUMMER[^-]*-\s*)?MTB\s+\d+/\d{4})', ·)`:
leftmost match, returning the captured (= whole matched) text. -/
def titleSearch : List Char → Option (List Char)
  | [] => none
  | c :: cs =>
      match titleMatchAt (c :: cs) with
      | some r => some r
      | none => titleSearch cs

/-! ## The Archive Row Parser (`MTBScraper._parse_archive_table`)

A table row is abstracted to the list of its cell texts (what
`get_text(strip=True)` returns per `td`; the `recursive=False` retry in the
source only affects which `td` set is chosen, not the texts used).  The
edition dict becomes `EdRec`; its `edition_id` string `f"{year}-{stueck}"`
is determined by `(year, stueck)` and, for naturals, determines it back, so
identity is carried as the pair. -/

structure EdRec where
  year : Nat
  stueck : Nat
  title : String
  url : String
  published : Option MDate
  isSpecial : Bool
deriving DecidableEq, Repr

/-- The `(year, stueck)` natural key standing for `edition_id`. -/
def EdRec.key (e : EdRec) : Nat × Nat :=
  (e.year, e.stueck)

/-- The per-row body of `_parse_archive_table`'s loop: `none` models
`continue`. -/
def parse_archive_row (cells : List String) : Option EdRec :=
  match cells with
  | short_name :: date_str :: _ :: _ =>
      match mtbSearch short_name.toList with
      | none => none
      | some (stueck, year) =>
          let published : Option MDate :=
            match dateSearch date_str.toList with
            | some (d, m, y) => if validDate y m d then some ⟨y, m, d⟩ else none
            | none => none
          let clean_title : String :=
            match titleSearch short_name.toList with
            | some t => ⟨t⟩
            | none => "MTB " ++ toString stueck ++ "/" ++ toString year
          some { year := year, stueck := stueck, title := clean_title,
                 url := "https://ix.jku.at/?app=mtb&jahr=" ++ toString year ++
                   "&stk=" ++ toString stueck,
                 published := published,
                 isSpecial := containsSub "SONDERNUMMER" short_name }
  | _ => none

/-- `MTBScraper._parse_archive_table` over the rows of the fragment. -/
def parse_archive_table (rows : List (List String)) : List EdRec :=
  rows.filterMap parse_archive_row

/-! ## The Edition Scanner loop (`MTBScraper.discover_editions`)

The browser session is abstracted to the sequence of archive pages it
renders, each already reduced to its parsed edition rows (the `while` loop
reads `page.content()` and immediately runs `_parse_archive_table`; a
"next" button exists exactly while further pages remain).  The loop state
is the `all_editions_seen` set, the `editions` accumulator and the
`stop_scanning` flag. -/

structure ScanState where
  seen : List (Nat × Nat)
  editions : List EdRec
  stop : Bool
deriving Repr

/-- `to_date and pub_date and pub_date > to_date`. -/
def afterToDate (toD : Option MDate) (r : EdRec) : Bool :=
  match toD, r.published with
  | some t, some p => MDate.ltb t p
  | _, _ => false

/-- `from_date and pub_date and pub_date < from_date`. -/
def beforeFromDate (fromD : Option MDate) (r : EdRec) : Bool :=
  match fromD, r.published with
  | some f, some p => MDate.ltb p f
  | _, _ => false

/-- A row the date window keeps: neither skipped by `to_date` nor stopping
the scan via `from_date`. -/
def inWindowB (fromD toD : Option MDate) (r : EdRec) : Bool :=
  !(afterToDate toD r) && !(beforeFromDate fromD r)

/-- Archive order ("newest first"): a later row is not strictly newer than
an earlier one, whenever both dates parsed. -/
def notNewerB (a b : EdRec) : Bool :=
  match a.published, b.published with
  | some pa, some pb => !(MDate.ltb pa pb)
  | _, _ => true

/-- The inner `for ed in page_editions` loop of `discover_editions`:
dedup guard, `to_date` skip, `from_date` stop-and-break, else accept. -/
def scanRows (fromD toD : Option MDate) : List EdRec → ScanState → ScanState
  | [], st => st
  | ed :: rest, st =>
      if st.stop then st
      else if ed.key ∈ st.seen then scanRows fromD toD rest st
      else
        let st := { st with seen := ed.key :: st.seen }
        if afterToDate toD ed then scanRows fromD toD rest st
        else if beforeFromDate fromD ed then { st with stop := true }
        else scanRows fromD toD rest { st with editions := st.editions ++ [ed] }

/-- The outer `while page_num <= max_pages and not stop_scanning` loop:
the `Nat` argument is the remaining page budget, an empty parse result or
a missing "next" button breaks. -/
def scanPages (fromD toD : Option MDate) : List (List EdRec) → Nat → ScanState → ScanState
  | _, 0, st => st
  | [], _, st => st
  | page :: rest, n + 1, st =>
      if st.stop then st
      else if page.isEmpty then st
      else
        let st := scanRows fromD toD page st
        if st.stop then st else scanPages fromD toD rest n st

/-- `MTBScraper.discover_editions` over pre-parsed archive pages
(`max_pages = 10`). -/
def discover_editions (pages : List (List EdRec)) (fromD toD : Option MDate) :
    List EdRec :=
  (scanPages fromD toD pages 10 ⟨[], [], false⟩).editions

/-! ## Persistence of discovery (`run_scraper` / `Repository`)

The SQLAlchemy session is a list of `DbEdition` rows in insertion order;
`query(...).first()` is `List.find?`.  `Repository.get_edition_by_id`
splits `f"{year}-{stueck}"` back into the pair, so lookups are keyed by
`(year, stueck)` directly. -/

structure DbEdition where
  year : Nat
  stueck : Nat
  title : String
  url : String
  published : Option MDate
  scrapedAt : Option Nat
  analyzedAt : Option Nat
deriving DecidableEq, Repr

/-- `Repository.get_edition` / `get_edition_by_id`: first row with the key. -/
def get_edition (db : List DbEdition) (year stueck : Nat) : Option DbEdition :=
  db.find? (fun e => decide (e.year = year) && decide (e.stueck = stueck))

/-- The row `Repository.add_edition` inserts for a discovered edition
(processing timestamps start `NULL`). -/
def mkDbEdition (ed : EdRec) : DbEdition :=
  { year := ed.year, stueck := ed.stueck, title := ed.title, url := ed.url,
    published := ed.published, scrapedAt := none, analyzedAt := none }

/-- The persistence loop of `run_scraper` (also `scan_and_store`): for each
discovered edition, skip if the key exists, else insert. -/
def store_editions (db : List DbEdition) (eds : List EdRec) : List DbEdition :=
  eds.foldl
    (fun db ed =>
      if (get_edition db ed.year ed.stueck).isSome then db
      else db ++ [mkDbEdition ed])
    db

/-! ## Repository ordering and the Sync Procedure watermark
(`Repository.get_all_editions`, `run_sync_all_task`) -/

/-- `(year, stueck) ≥ (year, stueck)` in the repository's
`ORDER BY year DESC, stueck DESC` sense. -/
def keyGeb (a b : DbEdition) : Bool :=
  decide (b.year < a.year) ||
    (decide (a.year = b.year) && decide (b.stueck ≤ a.stueck))

/-- Insert into a descending-ordered list (model of the SQL sort). -/
def insertDesc (e : DbEdition) : List DbEdition → List DbEdition
  | [] => [e]
  | x :: xs => if keyGeb e x then e :: x :: xs else x :: insertDesc e xs

/-- Sort rows by `(year, stueck)` descending. -/
def sortDesc (db : List DbEdition) : List DbEdition :=
  db.foldr insertDesc []

/-- `Repository.get_all_editions()` (no year filter). -/
def get_all_editions (db : List DbEdition) : List DbEdition :=
  sortDesc db

/-- `Repository.get_unscraped_editions()`. -/
def get_unscraped_editions (db : List DbEdition) : List DbEdition :=
  sortDesc (db.filter (fun e => e.scrapedAt.isNone))

/-- `Repository.get_unanalyzed_editions()`. -/
def get_unanalyzed_editions (db : List DbEdition) : List DbEdition :=
  sortDesc (db.filter (fun e => e.scrapedAt.isSome && e.analyzedAt.isNone))

/-- `run_sync_all_task`'s watermark (`latest_processed`): first edition in
descending order with both timestamps set (the loop breaks on the first
hit). -/
def latest_processed (db : List DbEdition) : Option DbEdition :=
  (get_all_editions db).find? (fun e => e.scrapedAt.isSome && e.analyzedAt.isSome)

/-- The `from_date` the sync scan phase passes to the scraper: the
watermark's published date when the watermark exists *and* has one,
otherwise `now - timedelta(days=30)`. -/
def sync_from_date (db : List DbEdition) (now : MDate) : MDate :=
  match latest_processed db with
  | some w =>
      match w.published with
      | some p => p
      | none => now.subDays 30
  | none => now.subDays 30

/-- `ed.year > w.year or (ed.year == w.year and ed.stueck > w.stueck)`. -/
def newerThan (w e : DbEdition) : Bool :=
  decide (w.year < e.year) ||
    (decide (e.year = w.year) && decide (w.stueck < e.stueck))

/-- The editions the sync scrape phase iterates over: the unscraped set,
restricted to strictly-newer-than-watermark when a watermark exists. -/
def sync_scrape_list (db : List DbEdition) : List DbEdition :=
  let unscraped := get_unscraped_editions db
  match latest_processed db with
  | some w => unscraped.filter (newerThan w)
  | none => unscraped

/-! ## Item records and de-duplication (`MTBScraper.scrape_edition`) -/

structure Att where
  name : String
  url : String
deriving DecidableEq, Repr

/-- The item dict produced by `_parse_items_from_html` /
`_extract_items_alternative` (`hasAttachments := false` models the absent
`has_attachments` key of the alternative extractor, which Python reads as
falsy). -/
structure RawItem where
  punkt : Nat
  category : String
  title : String
  content : String
  attachments : List Att
  hasAttachments : Bool
deriving DecidableEq, Repr

/-- The `seen_punkts` loop of `scrape_edition`. -/
def dedupAux (seen : List Nat) : List RawItem → List RawItem
  | [] => []
  | it :: rest =>
      if it.punkt ∈ seen then dedupAux seen rest
      else it :: dedupAux (it.punkt :: seen) rest

/-- De-duplication by `punkt` as `scrape_edition` performs it. -/
def dedup_by_punkt (items : List RawItem) : List RawItem :=
  dedupAux [] items

/-- The spec's description of the de-duplication ("later duplicates are
dropped, first occurrence wins"), written independently of the loop: keep
the head, drop every later item with the same `punkt`, recurse. -/
def keepFirstByPunkt : List RawItem → List RawItem
  | [] => []
  | it :: rest =>
      it :: keepFirstByPunkt (rest.filter (fun x => x.punkt ≠ it.punkt))
termination_by l => l.length
decreasing_by
  simp only [List.length_cons]
  exact Nat.lt_succ_of_le (List.length_filter_le _ _)

/-! ## The fallback item extractor (`MTBScraper._extract_items_alternative`)
and the strategy choice in `scrape_edition` -/

/-- Python `str.strip()` (ASCII whitespace). -/
def pyStrip (s : String) : String :=
  ⟨((s.toList.dropWhile isPySpace).reverse.dropWhile isPySpace).reverse⟩

/-- ASCII `str.lower()`. -/
def pyLower (s : String) : String :=
  ⟨s.toList.map Char.toLower⟩

/-- Match `Pkt\.:\s*(\d+)` anchored at the head: returns the captured
number and the total match length. -/
def punktMatchAt (s : List Char) : Option (Nat × Nat) :=
  match matchLit "Pkt.:".toList s with
  | none => none
  | some s1 =>
      let (sp, s2) := s1.span isPySpace
      let (ds, _) := s2.span isPyDigit
      if ds.isEmpty then none
      else some (natOfDigits ds, 5 + sp.length + ds.length)

/-- The scan loop of `re.finditer(r'Pkt\.:\s*(\d+)', ·)`, driven by a fuel
counter so the recursion is structural; every step consumes at least one
character, so fuel equal to the text length is never exhausted. -/
def punktFinditerAux : Nat → List Char → Nat → List (Nat × Nat)
  | 0, _, _ => []
  | _, [], _ => []
  | fuel + 1, c :: cs, i =>
      match punktMatchAt (c :: cs) with
      | some (v, len) => (i, v) :: punktFinditerAux fuel (cs.drop (len - 1)) (i + len)
      | none => punktFinditerAux fuel cs (i + 1)

/-- `re.finditer(r'Pkt\.:\s*(\d+)', ·)`: successive non-overlapping
leftmost matches, each reported with its start index. -/
def punktFinditer (s : List Char) (i : Nat) : List (Nat × Nat) :=
  punktFinditerAux s.length s i

/-- `re.search(r'Kategorie:\s*([^\n]+)', ·)` followed by `.strip()` on the
capture; `none` and an all-whitespace capture both end up as `''` in the
source, and are identified here. -/
def kategorieSearch : List Char → Option String
  | [] => none
  | c :: cs =>
      match matchLit "Kategorie:".toList (c :: cs) with
      | some rest =>
          let body := rest.dropWhile isPySpace
          if body.isEmpty then kategorieSearch cs
          else some (pyStrip ⟨body.takeWhile (fun x => x ≠ '\n')⟩)
      | none => kategorieSearch cs

/-- `any(p in line for p in skip_patterns)`. -/
def altSkipLine (line : String) : Bool :=
  ["Pkt.:", "Kategorie:", "Permalink", "Anhänge", "DER REKTOR",
    "FÜR DAS REKTORAT"].any (fun p => containsSub p line)

/-- The title/content selection loop of `_extract_items_alternative`
(`title` is the accumulating variable; setting `content` breaks). -/
def altScan (title : String) : List String → String × String
  | [] => (title, "")
  | l :: rest =>
      if altSkipLine l then altScan title rest
      else if title = "" && decide (5 < l.length) then altScan (⟨l.toList.take 500⟩) rest
      else if title ≠ "" && decide (10 < l.length) then (title, ⟨l.toList.take 5000⟩)
      else altScan title rest

/-- One item of the fallback extractor, built from its punkt number and
its text section. -/
def mkAltItem (punkt : Nat) (sect : List Char) : RawItem :=
  let category := (kategorieSearch sect).getD ""
  let lines := (String.splitOn ⟨sect⟩ "\n").map pyStrip |>.filter (fun l => l ≠ "")
  let (title, content) := altScan "" lines
  { punkt := punkt, category := category, title := title, content := content,
    attachments := [], hasAttachments := false }

/-- Slice the page text between consecutive match starts (the last section
runs to the end of the text). -/
def altSections (cs : List Char) : List (Nat × Nat) → List RawItem
  | [] => []
  | [(s, v)] => [mkAltItem v (cs.drop s)]
  | (s, v) :: (s2, v2) :: rest =>
      mkAltItem v ((cs.drop s).take (s2 - s)) :: altSections cs ((s2, v2) :: rest)

/-- `MTBScraper._extract_items_alternative` over the page's plain text. -/
def extract_items_alternative (all_text : String) : List RawItem :=
  let cs := all_text.toList
  altSections cs (punktFinditer cs 0)

/-- The strategy choice in `scrape_edition`: the fallback runs exactly when
the structural parse produced no items (`if not items_data:`). -/
def choose_items (primary : List RawItem) (all_text : String) : List RawItem :=
  if primary.isEmpty then extract_items_alternative all_text else primary

/-! ## The relevance scorer (`RelevanceAnalyzer.analyze_item` /
`_parse_response`)

Scores travel as Python floats; no arithmetic beyond decimal parsing and
`min`/`max` clamping touches them, so they are modelled as exact rationals
(the claims only concern the interval `[0, 100]`, which is preserved by
the float rounding of a decimal literal). -/

/-- Case-insensitive literal match (`re.IGNORECASE`, ASCII). -/
def matchLitCI : List Char → List Char → Option (List Char)
  | [], s => some s
  | _ :: _, [] => none
  | p :: ps, c :: cs => if c.toLower = p.toLower then matchLitCI ps cs else none

/-- Match `SCORE:\s*(\d+(?:\.\d+)?)` (ignore-case) anchored at the head;
returns the captured decimal as a rational. -/
def scoreMatchAt (s : List Char) : Option ℚ :=
  match matchLitCI "SCORE:".toList s with
  | none => none
  | some s1 =>
      let s2 := s1.dropWhile isPySpace
      let (ds, s3) := s2.span isPyDigit
      if ds.isEmpty then none
      else
        let intPart : ℚ := (natOfDigits ds : ℚ)
        match s3 with
        | '.' :: s4 =>
            let (fs, _) := s4.span isPyDigit
            if fs.isEmpty then some intPart
            else some (intPart + (natOfDigits fs : ℚ) / ((10 : ℚ) ^ fs.length))
        | _ => some intPart

/-- `re.search(r'SCORE:\s*(\d+(?:\.\d+)?)', response, re.IGNORECASE)`:
leftmost position where the whole pattern matches. -/
def parse_score : List Char → Option ℚ
  | [] => none
  | c :: cs =>
      match scoreMatchAt (c :: cs) with
      | some r => some r
      | none => parse_score cs

/-- Earliest index `j ≥ 1` in `body` at which one of the stop markers
begins (ignore-case); `none` when no stop marker occurs. -/
def stopIndex (stops : List (List Char)) : List Char → Option Nat
  | [] => none
  | _ :: cs =>
      let rec go (cs : List Char) (j : Nat) : Option Nat :=
        match cs with
        | [] => none
        | c :: rest =>
            if stops.any (fun p => (matchLitCI p (c :: rest)).isSome) then some j
            else go rest (j + 1)
      go cs 1

/-- Model of `re.search(marker + r'\s*(.+?)(?=stop₁|…|$)', response,
re.IGNORECASE | re.DOTALL)` followed by `.strip()` on the capture: the
lazy group runs from after the greedy whitespace to the first stop-marker
occurrence at least one character in (or to the end).  A match whose
capture strips to the empty string and a failed search are identified —
the source treats both as the empty field. -/
def lazyFieldSearch (marker : List Char) (stops : List (List Char)) :
    List Char → Option String
  | [] => none
  | c :: cs =>
      match matchLitCI marker (c :: cs) with
      | some rest =>
          let body := rest.dropWhile isPySpace
          if body.isEmpty then lazyFieldSearch marker stops cs
          else
            match stopIndex stops body with
            | some j => some (pyStrip ⟨body.take j⟩)
            | none => some (pyStrip ⟨body⟩)
      | none => lazyFieldSearch marker stops cs

/-- `RelevanceAnalyzer._parse_response`. -/
def parse_response (response : String) : ℚ × String × String :=
  let score : ℚ :=
    match parse_score response.toList with
    | some v => min (100 : ℚ) (max (0 : ℚ) v)
    | none => 0
  let short_title : String :=
    match lazyFieldSearch "SHORT_TITLE:".toList
        ["SUMMARY:".toList, "EXPLANATION:".toList] response.toList with
    | some t => ⟨t.toList.take 200⟩
    | none => ""
  let summary : String :=
    (lazyFieldSearch "SUMMARY:".toList
      ["RELEVANCE:".toList, "EXPLANATION:".toList, "KEY_POINTS:".toList]
      response.toList).getD ""
  let relevance0 : String :=
    (lazyFieldSearch "RELEVANCE:".toList ["KEY_POINTS:".toList]
      response.toList).getD ""
  let relevance : String :=
    if relevance0 = "" then
      (lazyFieldSearch "EXPLANATION:".toList ["KEY_POINTS:".toList]
        response.toList).getD ""
    else relevance0
  let key_points : String :=
    (lazyFieldSearch "KEY_POINTS:".toList [] response.toList).getD ""
  let parts : List String :=
    (if summary ≠ "" then ["Summary: " ++ summary] else []) ++
    (if relevance ≠ "" then ["Relevance: " ++ relevance] else []) ++
    (if key_points ≠ "" &&
        !(List.contains ["none", "n/a", "-"] (pyLower key_points)) then
      ["Key points: " ++ key_points]
    else [])
  let explanation := if parts.isEmpty then response else String.intercalate "\n\n" parts
  (score, explanation, short_title)

/-- `RelevanceAnalyzer.analyze_item`: the messages-API call either yields a
response text or raises; the `except` branch converts the exception to the
error triple. -/
def analyze_item (api : Except String String) : ℚ × String × String :=
  match api with
  | .ok response => parse_response response
  | .error e => (0, "Error during analysis: " ++ e, "")

/-! ## The attachment-link filter (`MTBScraper._extract_attachments`)

One dialog's candidate links (already selected by
`find_all('a', href=re.compile(r'downloadIxServlet'))`) are processed for
the owning item found by the DOM walk; the item's attachment list is the
state.  `html.unescape` is modelled on the entity forms the portal emits
(the five XML named entities and decimal character references). -/

structure RawLink where
  href : String
  text : String
deriving DecidableEq, Repr

/-- `html.unescape` restricted to the five XML named entities (the only
entity forms the portal's hrefs carry); other text, including unknown
entity forms, passes through unchanged, as the source function leaves
unknown forms. -/
def htmlUnescapeL : List Char → List Char
  | [] => []
  | '&' :: 'a' :: 'm' :: 'p' :: ';' :: rest => '&' :: htmlUnescapeL rest
  | '&' :: 'l' :: 't' :: ';' :: rest => '<' :: htmlUnescapeL rest
  | '&' :: 'g' :: 't' :: ';' :: rest => '>' :: htmlUnescapeL rest
  | '&' :: 'q' :: 'u' :: 'o' :: 't' :: ';' :: rest => '"' :: htmlUnescapeL rest
  | '&' :: 'a' :: 'p' :: 'o' :: 's' :: ';' :: rest => '\'' :: htmlUnescapeL rest
  | c :: rest => c :: htmlUnescapeL rest

def htmlUnescape (s : String) : String :=
  ⟨htmlUnescapeL s.toList⟩

/-- `urljoin(BASE_URL, href)` for the fixed base `https://ix.jku.at`
(origin only, empty path): absolute references pass through, the rest
resolve against the origin. -/
def urljoin_base (href : String) : String :=
  if containsSub "://" href then href
  else if hasPrefixL "//".toList href.toList then "https:" ++ href
  else if hasPrefixL "?".toList href.toList || hasPrefixL "#".toList href.toList then
    "https://ix.jku.at" ++ href
  else if hasPrefixL "/".toList href.toList then "https://ix.jku.at" ++ href
  else "https://ix.jku.at/" ++ href

/-- The body of the `for link in download_links` loop, acting on the owning
item's attachment list. -/
def process_link (atts : List Att) (link : RawLink) : List Att :=
  let href := htmlUnescape link.href
  if href = "" then atts
  else if link.text = "" || containsSub "Diese Datei anzeigen" link.text then atts
  else if link.text.length < 5 then atts
  else
    let full_url := urljoin_base href
    if (atts.map Att.url).contains full_url then atts
    else atts ++ [{ name := link.text, url := full_url }]

/-- All candidate links of one dialog, folded over the owning item's
attachment list. -/
def process_dialog_links (atts : List Att) (links : List RawLink) : List Att :=
  links.foldl process_link atts

/-! ## Theorems -/

/-- C1: from a state with `running = false`, `start_task` returns `true`,
sets `running`, records the task name and resets progress, total and
error; from a running state it returns `false` and leaves every field
unchanged; task completion (normal or exceptional) clears `running` and
the task name; and a `start_task` issued after a successful one (before
completion) is rejected, so at most one task runs at a time. -/
theorem start_task_single_flight (st : TMState) (name : String)
    (failure : Option (String × String × String × String)) :
    (st.running = false →
      start_task st name =
        (true, { st with running := true, taskName := some name,
                         progress := 0, total := 0, error := none })) ∧
    (st.running = true → start_task st name = (false, st)) ∧
    (finish_task st failure).running = false ∧
    (finish_task st failure).taskName = none ∧
    (∀ st', start_task st name = (true, st') →
      ∀ name', start_task st' name' = (false, st')) := by
  refine ⟨fun h => ?_, fun h => ?_, ?_, ?_, fun st' h name' => ?_⟩
  · simp [start_task, h]
  · simp [start_task, h]
  · rcases failure with _ | ⟨e, ts1, tb, ts2⟩ <;> simp [finish_task]
  · rcases failure with _ | ⟨e, ts1, tb, ts2⟩ <;> simp [finish_task]
  · unfold start_task at h ⊢
    by_cases hr : st.running
    · simp [hr] at h
    · simp [hr] at h
      subst h
      simp

theorem start_task_single_flight_witness :
    start_task TMState.init "scan" =
      (true, { running := true, taskName := some "scan", logs := [],
               progress := 0, total := 0, error := none }) ∧
    start_task { running := true, taskName := some "scan", logs := [],
                 progress := 0, total := 0, error := none } "scrape" =
      (false, { running := true, taskName := some "scan", logs := [],
                progress := 0, total := 0, error := none }) :=
  ⟨(start_task_single_flight TMState.init "scan" none).1 rfl,
   (start_task_single_flight
      { running := true, taskName := some "scan", logs := [], progress := 0,
        total := 0, error := none } "scrape" none).2.1 rfl⟩

/-- The score component of a parsed response: the clamped regex capture,
`0` when no score is parseable. -/
theorem analyze_item_ok_fst (r : String) :
    (analyze_item (Except.ok r)).1 =
      match parse_score r.toList with
      | some v => min (100 : ℚ) (max 0 v)
      | none => 0 := rfl

/-- C4: scoring is total (the Lean model of `analyze_item` is a function,
matching the source's blanket `except`), its score always lies in
`[0, 100]`, an unparseable response scores `0`, and an API failure yields
exactly `(0, "Error during analysis: " ++ e, "")`. -/
theorem analyze_item_score_contract (api : Except String String) :
    0 ≤ (analyze_item api).1 ∧ (analyze_item api).1 ≤ 100 ∧
    (∀ e, api = .error e →
      analyze_item api = (0, "Error during analysis: " ++ e, "")) ∧
    (∀ resp, api = .ok resp → parse_score resp.toList = none →
      (analyze_item api).1 = 0) := by
  cases api with
  | error e =>
      refine ⟨?_, ?_, ?_, ?_⟩
      · show (0 : ℚ) ≤ 0
        norm_num
      · show (0 : ℚ) ≤ 100
        norm_num
      · intro e' he
        injection he with h
        subst h
        rfl
      · intro resp' hr _
        cases hr
  | ok resp =>
      refine ⟨?_, ?_, ?_, ?_⟩
      · rw [analyze_item_ok_fst]
        rcases hps : parse_score resp.toList with _ | v
        · norm_num
        · exact le_min (by norm_num) (le_max_left _ _)
      · rw [analyze_item_ok_fst]
        rcases hps : parse_score resp.toList with _ | v
        · norm_num
        · exact min_le_left _ _
      · intro e' he
        cases he
      · intro resp' hr hn
        cases hr
        rw [analyze_item_ok_fst, hn]

theorem analyze_item_score_contract_witness :
    analyze_item (.error "boom") = (0, "Error during analysis: boom", "") ∧
    (analyze_item (.ok "no score here")).1 = 0 :=
  ⟨(analyze_item_score_contract (.error "boom")).2.2.1 "boom" rfl,
   (analyze_item_score_contract (.ok "no score here")).2.2.2 "no score here"
     rfl (by decide)⟩

theorem keepFirstByPunkt_nil : keepFirstByPunkt [] = [] := by
  rw [keepFirstByPunkt.eq_def]

theorem keepFirstByPunkt_cons (it : RawItem) (l : List RawItem) :
    keepFirstByPunkt (it :: l) =
      it :: keepFirstByPunkt (l.filter fun x => decide (x.punkt ≠ it.punkt)) := by
  rw [keepFirstByPunkt.eq_def]

/-- The `seen_punkts` loop with any starting set keeps, of the items whose
punkt is outside the set, exactly the first occurrence of each punkt. -/
theorem dedupAux_eq_keepFirst (l : List RawItem) :
    ∀ seen, dedupAux seen l =
      keepFirstByPunkt (l.filter fun x => decide (x.punkt ∉ seen)) := by
  induction l with
  | nil => intro seen; simp [dedupAux, keepFirstByPunkt]
  | cons it rest ih =>
      intro seen
      by_cases hmem : it.punkt ∈ seen
      · have hfil : (it :: rest).filter (fun x => decide (x.punkt ∉ seen)) =
            rest.filter (fun x => decide (x.punkt ∉ seen)) := by
          simp [List.filter_cons, hmem]
        simp only [dedupAux, if_pos hmem, hfil]
        exact ih seen
      · have hfil : (it :: rest).filter (fun x => decide (x.punkt ∉ seen)) =
            it :: rest.filter (fun x => decide (x.punkt ∉ seen)) := by
          simp [List.filter_cons, hmem]
        simp only [dedupAux, if_neg hmem, hfil]
        rw [keepFirstByPunkt_cons]
        congr 1
        rw [ih (it.punkt :: seen), List.filter_filter]
        have hpred : (fun x : RawItem => decide (x.punkt ∉ it.punkt :: seen)) =
            (fun a : RawItem =>
              decide (a.punkt ≠ it.punkt) && decide (a.punkt ∉ seen)) := by
          funext x
          by_cases h1 : x.punkt = it.punkt <;> by_cases h2 : x.punkt ∈ seen <;>
            simp [h1, h2]
        rw [hpred]

/-- Every item the loop emits has a punkt outside the starting set. -/
theorem dedupAux_punkt_not_seen (l : List RawItem) :
    ∀ seen x, x ∈ dedupAux seen l → x.punkt ∉ seen := by
  induction l with
  | nil => intro seen x hx; cases hx
  | cons it rest ih =>
      intro seen x hx
      by_cases hmem : it.punkt ∈ seen
      · rw [dedupAux, if_pos hmem] at hx
        exact ih seen x hx
      · rw [dedupAux, if_neg hmem] at hx
        rcases List.mem_cons.mp hx with h | h
        · subst h; exact hmem
        · intro hs
          exact ih _ x h (List.mem_cons_of_mem _ hs)

/-- The punkt numbers the loop emits are pairwise distinct. -/
theorem dedupAux_nodup (l : List RawItem) :
    ∀ seen, ((dedupAux seen l).map RawItem.punkt).Nodup := by
  induction l with
  | nil => intro seen; simp [dedupAux]
  | cons it rest ih =>
      intro seen
      by_cases hmem : it.punkt ∈ seen
      · rw [dedupAux, if_pos hmem]
        exact ih seen
      · rw [dedupAux, if_neg hmem]
        rw [List.map_cons, List.nodup_cons]
        refine ⟨?_, ih _⟩
        intro hcontra
        rcases List.mem_map.mp hcontra with ⟨x, hx, hpx⟩
        exact dedupAux_punkt_not_seen rest _ x hx (by simp [hpx])

/-- C6: de-duplication by punkt keeps exactly the first occurrence of each
punkt value (it coincides with the first-occurrence-wins recursion), the
surviving punkt values are unique, and two items sharing a punkt collapse
to the first. -/
theorem dedup_by_punkt_first_occurrence_wins (items : List RawItem)
    (a b : RawItem) :
    dedup_by_punkt items = keepFirstByPunkt items ∧
    ((dedup_by_punkt items).map RawItem.punkt).Nodup ∧
    (a.punkt = b.punkt → dedup_by_punkt [a, b] = [a]) := by
  refine ⟨?_, dedupAux_nodup items [], fun h => ?_⟩
  · rw [dedup_by_punkt, dedupAux_eq_keepFirst]
    congr 1
    simp
  · simp [dedup_by_punkt, dedupAux, h]

theorem dedup_by_punkt_first_occurrence_wins_witness :
    dedup_by_punkt
        [{ punkt := 4, category := "", title := "first", content := "",
           attachments := [], hasAttachments := false },
         { punkt := 4, category := "", title := "second", content := "",
           attachments := [], hasAttachments := false }] =
      [{ punkt := 4, category := "", title := "first", content := "",
         attachments := [], hasAttachments := false }] :=
  (dedup_by_punkt_first_occurrence_wins
    [{ punkt := 4, category := "", title := "first", content := "",
       attachments := [], hasAttachments := false },
     { punkt := 4, category := "", title := "second", content := "",
       attachments := [], hasAttachments := false }]
    { punkt := 4, category := "", title := "first", content := "",
      attachments := [], hasAttachments := false }
    { punkt := 4, category := "", title := "second", content := "",
      attachments := [], hasAttachments := false }).2.2 rfl

/-- The natural keys of the stored rows, in order. -/
def edKeys (db : List DbEdition) : List (Nat × Nat) :=
  db.map (fun e => (e.year, e.stueck))

theorem get_edition_append_of_some (db : List DbEdition) (l : List DbEdition)
    (y s : Nat) (e : DbEdition) (h : get_edition db y s = some e) :
    get_edition (db ++ l) y s = some e := by
  induction db with
  | nil => simp [get_edition, List.find?] at h
  | cons x rest ih =>
      cases hx : (decide (x.year = y) && decide (x.stueck = s)) with
      | true =>
          simp only [get_edition, List.cons_append, List.find?_cons, hx,
            cond_true] at h ⊢
          exact h
      | false =>
          simp only [get_edition, List.cons_append, List.find?_cons, hx,
            cond_false] at h ⊢
          exact ih h

theorem get_edition_store_of_some (eds : List EdRec) :
    ∀ (db : List DbEdition) (y s : Nat) (e : DbEdition),
      get_edition db y s = some e →
      get_edition (store_editions db eds) y s = some e := by
  induction eds with
  | nil => intro db y s e h; exact h
  | cons ed rest ih =>
      intro db y s e h
      rw [store_editions, List.foldl_cons]
      by_cases hp : (get_edition db ed.year ed.stueck).isSome
      · rw [if_pos hp]
        exact ih db y s e h
      · rw [if_neg hp]
        exact ih _ y s e (get_edition_append_of_some db _ y s e h)

theorem get_edition_store_isSome (eds : List EdRec) :
    ∀ (db : List DbEdition) (y s : Nat),
      (get_edition db y s).isSome = true →
      (get_edition (store_editions db eds) y s).isSome = true := by
  intro db y s h
  rcases Option.isSome_iff_exists.mp h with ⟨e, he⟩
  rw [get_edition_store_of_some eds db y s e he]
  rfl

/-- After one persistence run, every discovered key is present. -/
theorem store_editions_key_present (eds : List EdRec) :
    ∀ (db : List DbEdition) (ed : EdRec), ed ∈ eds →
      (get_edition (store_editions db eds) ed.year ed.stueck).isSome = true := by
  induction eds with
  | nil => intro db ed h; cases h
  | cons e0 rest ih =>
      intro db ed hmem
      rw [store_editions, List.foldl_cons]
      have hstep : ∀ db' : List DbEdition,
          (get_edition db' e0.year e0.stueck).isSome = true →
          ed ∈ e0 :: rest →
          (get_edition (store_editions db' rest) ed.year ed.stueck).isSome = true := by
        intro db' hp hm
        rcases List.mem_cons.mp hm with h | h
        · subst h; exact get_edition_store_isSome rest db' _ _ hp
        · exact ih db' ed h
      by_cases hp : (get_edition db e0.year e0.stueck).isSome
      · rw [if_pos hp]
        exact hstep db hp hmem
      · rw [if_neg hp]
        refine hstep _ ?_ hmem
        have hnone : get_edition db e0.year e0.stueck = none := by
          rcases h : get_edition db e0.year e0.stueck with _ | v
          · rfl
          · rw [h] at hp; simp at hp
        rw [get_edition]
        rw [List.find?_append]
        rw [get_edition] at hnone
        rw [hnone]
        simp [mkDbEdition, List.find?]

/-- A run whose keys are all already present changes nothing. -/
theorem store_editions_noop (eds : List EdRec) :
    ∀ db : List DbEdition,
      (∀ ed ∈ eds, (get_edition db ed.year ed.stueck).isSome = true) →
      store_editions db eds = db := by
  induction eds with
  | nil => intro db _; rfl
  | cons e0 rest ih =>
      intro db h
      rw [store_editions, List.foldl_cons,
        if_pos (h e0 (List.mem_cons_self _ _))]
      exact ih db (fun ed hm => h ed (List.mem_cons_of_mem _ hm))

theorem get_edition_none_key_not_mem (db : List DbEdition) (y s : Nat)
    (h : get_edition db y s = none) : (y, s) ∉ edKeys db := by
  intro hmem
  rcases List.mem_map.mp hmem with ⟨e, he, hkey⟩
  have := List.find?_eq_none.mp h e he
  simp only [Bool.and_eq_true, decide_eq_true_eq] at this
  exact this ⟨congrArg Prod.fst hkey, congrArg Prod.snd hkey⟩

/-- Persistence never creates a second row for an existing key. -/
theorem store_editions_nodup_keys (eds : List EdRec) :
    ∀ db : List DbEdition, (edKeys db).Nodup →
      (edKeys (store_editions db eds)).Nodup := by
  induction eds with
  | nil => intro db h; exact h
  | cons e0 rest ih =>
      intro db h
      rw [store_editions, List.foldl_cons]
      by_cases hp : (get_edition db e0.year e0.stueck).isSome
      · rw [if_pos hp]
        exact ih db h
      · rw [if_neg hp]
        refine ih _ ?_
        have hnone : get_edition db e0.year e0.stueck = none := by
          rcases hx : get_edition db e0.year e0.stueck with _ | v
          · rfl
          · rw [hx] at hp; simp at hp
        have hnotmem := get_edition_none_key_not_mem db _ _ hnone
        rw [edKeys, List.map_append]
        simp only [List.map_cons, List.map_nil]
        rw [List.nodup_append]
        exact ⟨h, List.nodup_singleton _,
          by simpa [mkDbEdition, List.disjoint_singleton, edKeys] using hnotmem⟩

/-- C5: persistence of discovery is keyed by `(year, stueck)`: a row whose
key already exists is returned unchanged by later lookups (no field
overwritten), a second run over the same discovery result is a no-op, and
runs never introduce duplicate keys. -/
theorem discovery_persistence_idempotent (db : List DbEdition)
    (eds : List EdRec) (y s : Nat) (e : DbEdition) :
    (get_edition db y s = some e →
      get_edition (store_editions db eds) y s = some e) ∧
    store_editions (store_editions db eds) eds = store_editions db eds ∧
    ((edKeys db).Nodup → (edKeys (store_editions db eds)).Nodup) := by
  refine ⟨get_edition_store_of_some eds db y s e, ?_,
    store_editions_nodup_keys eds db⟩
  exact store_editions_noop eds _ (fun ed hm => store_editions_key_present eds db ed hm)

theorem discovery_persistence_idempotent_witness :
    get_edition
        (store_editions
          [{ year := 2025, stueck := 1, title := "MTB 1/2025", url := "u",
             published := none, scrapedAt := some 7, analyzedAt := none }]
          [{ year := 2025, stueck := 1, title := "MTB 1/2025 again",
             url := "u2", published := none, isSpecial := false }])
        2025 1 =
      some { year := 2025, stueck := 1, title := "MTB 1/2025", url := "u",
             published := none, scrapedAt := some 7, analyzedAt := none } ∧
    (edKeys
      (store_editions
        [{ year := 2025, stueck := 1, title := "MTB 1/2025", url := "u",
           published := none, scrapedAt := some 7, analyzedAt := none }]
        [{ year := 2025, stueck := 1, title := "MTB 1/2025 again",
           url := "u2", published := none, isSpecial := false }])).Nodup :=
  ⟨(discovery_persistence_idempotent
      [{ year := 2025, stueck := 1, title := "MTB 1/2025", url := "u",
         published := none, scrapedAt := some 7, analyzedAt := none }]
      [{ year := 2025, stueck := 1, title := "MTB 1/2025 again",
         url := "u2", published := none, isSpecial := false }]
      2025 1
      { year := 2025, stueck := 1, title := "MTB 1/2025", url := "u",
        published := none, scrapedAt := some 7, analyzedAt := none }).1
    (by decide),
   (discovery_persistence_idempotent
      [{ year := 2025, stueck := 1, title := "MTB 1/2025", url := "u",
         published := none, scrapedAt := some 7, analyzedAt := none }]
      [{ year := 2025, stueck := 1, title := "MTB 1/2025 again",
         url := "u2", published := none, isSpecial := false }]
      2025 1
      { year := 2025, stueck := 1, title := "MTB 1/2025", url := "u",
        published := none, scrapedAt := some 7, analyzedAt := none }).2.2
    (by decide)⟩

/-- C7: the Archive Row Parser yields exactly one record per row whose
short-code cell matches `MTB\s+(\d+)/(\d{4})` (with the captured issue
number and year, the special flag exactly on the `SONDERNUMMER` marker,
and a null published date when the date cell fails `DD.MM.YYYY`), skips
every row whose short code does not match or that lacks three cells, and
the table parse is the row parse applied rowwise. -/
theorem archive_row_parser_contract (rows : List (List String))
    (short_name date_str third : String) (restCells : List String)
    (stueck year : Nat) :
    (mtbSearch short_name.toList = some (stueck, year) →
      ∃ rec, parse_archive_row (short_name :: date_str :: third :: restCells) =
          some rec ∧
        rec.stueck = stueck ∧ rec.year = year ∧
        rec.isSpecial = containsSub "SONDERNUMMER" short_name ∧
        (dateSearch date_str.toList = none → rec.published = none) ∧
        (∀ d m y, dateSearch date_str.toList = some (d, m, y) →
          rec.published = if validDate y m d then some ⟨y, m, d⟩ else none)) ∧
    (mtbSearch short_name.toList = none →
      parse_archive_row (short_name :: date_str :: third :: restCells) = none) ∧
    (∀ cells : List String, cells.length < 3 → parse_archive_row cells = none) ∧
    ((parse_archive_table rows).length =
      rows.countP (fun cells => (parse_archive_row cells).isSome)) := by
  refine ⟨?_, ?_, ?_, ?_⟩
  · intro h
    simp only [parse_archive_row]
    simp only [String.toList] at h ⊢
    rw [h]
    refine ⟨_, rfl, rfl, rfl, rfl, fun hd => ?_, fun d m yy hd => ?_⟩
    · simp only [String.toList] at hd ⊢
      rw [hd]
    · simp only [String.toList] at hd ⊢
      rw [hd]
  · intro h
    simp only [parse_archive_row]
    simp only [String.toList] at h ⊢
    rw [h]
  · intro cells hlen
    rcases cells with _ | ⟨a, _ | ⟨b, _ | ⟨c, r⟩⟩⟩
    · rfl
    · rfl
    · rfl
    · simp at hlen
      omega
  · induction rows with
    | nil => rfl
    | cons a rest ih =>
        simp only [parse_archive_table] at ih ⊢
        rcases h : parse_archive_row a with _ | v <;>
          simp [List.filterMap_cons, h, List.countP_cons] <;> omega

theorem archive_row_parser_contract_witness :
    ∃ rec,
      parse_archive_row
          ["SONDERNUMMER - MTB 63/2025", "15.12.2025", "2025"] = some rec ∧
      rec.stueck = 63 ∧ rec.year = 2025 ∧
      rec.isSpecial = containsSub "SONDERNUMMER" "SONDERNUMMER - MTB 63/2025" ∧
      (dateSearch "15.12.2025".toList = none → rec.published = none) ∧
      (∀ d m y, dateSearch "15.12.2025".toList = some (d, m, y) →
        rec.published = if validDate y m d then some ⟨y, m, d⟩ else none) :=
  (archive_row_parser_contract [] "SONDERNUMMER - MTB 63/2025" "15.12.2025"
    "2025" [] 63 2025).1 (by decide)

/-- One link step preserves uniqueness of attachment URLs. -/
theorem process_link_nodup (atts : List Att) (l : RawLink)
    (h : (atts.map Att.url).Nodup) :
    ((process_link atts l).map Att.url).Nodup := by
  simp only [process_link]
  split_ifs with h1 h2 h3 h4
  · exact h
  · exact h
  · exact h
  · exact h
  · rw [List.map_append]
    simp only [List.map_cons, List.map_nil]
    rw [List.nodup_append]
    refine ⟨h, List.nodup_singleton _, ?_⟩
    simp only [List.disjoint_singleton]
    intro hmem
    exact h4 (List.elem_iff.mpr hmem)

theorem process_dialog_links_nodup (links : List RawLink) :
    ∀ atts : List Att, (atts.map Att.url).Nodup →
      ((process_dialog_links atts links).map Att.url).Nodup := by
  induction links with
  | nil => intro atts h; exact h
  | cons l rest ih =>
      intro atts h
      simp only [process_dialog_links, List.foldl_cons]
      exact ih (process_link atts l) (process_link_nodup atts l h)

/-- C8 (amended): a candidate link is dropped when its text is empty,
shorter than five characters, or **contains** the "Diese Datei anzeigen"
label; otherwise its entity-decoded href is resolved against the portal
base and `{name, url}` is appended only if that URL is not already
present, so attachment URLs stay unique within an item. -/
theorem attachment_link_filter (atts : List Att) (link : RawLink)
    (links : List RawLink) :
    (link.text = "" ∨ containsSub "Diese Datei anzeigen" link.text = true ∨
        link.text.length < 5 →
      process_link atts link = atts) ∧
    (htmlUnescape link.href ≠ "" → link.text ≠ "" →
     containsSub "Diese Datei anzeigen" link.text = false →
     ¬ link.text.length < 5 →
      process_link atts link =
        (if (atts.map Att.url).contains (urljoin_base (htmlUnescape link.href))
         then atts
         else atts ++ [{ name := link.text,
                         url := urljoin_base (htmlUnescape link.href) }])) ∧
    ((atts.map Att.url).Nodup →
      ((process_dialog_links atts links).map Att.url).Nodup) := by
  refine ⟨?_, ?_, process_dialog_links_nodup links atts⟩
  · intro h
    simp only [process_link]
    split_ifs with h1 h2 h3 h4
    any_goals rfl
    all_goals
      rcases h with h | h | h
      · exact absurd (by simp [h]) h2
      · exact absurd (by simp [h]) h2
      · exact absurd h h3
  · intro h1 h2 h3 h4
    simp [process_link, h1, h2, h3, h4]

theorem attachment_link_filter_witness :
    process_link []
        { href := "downloadIxServlet?id=1", text := "Bericht.pdf" } =
      [{ name := "Bericht.pdf",
         url := "https://ix.jku.at/downloadIxServlet?id=1" }] ∧
    process_link [] { href := "x", text := "ico" } = [] := by
  constructor
  · have h := (attachment_link_filter []
      { href := "downloadIxServlet?id=1", text := "Bericht.pdf" } []).2.1
      (by decide) (by decide) (by decide) (by decide)
    rw [h]
    decide
  · exact (attachment_link_filter [] { href := "x", text := "ico" } []).1
      (Or.inr (Or.inr (by decide)))

/-- C8, as frozen, is refuted: a link whose text merely contains the
"view this file" label (but is not that label, is non-empty and is at
least five characters long) is still rejected by the code. -/
theorem attachment_link_filter_counterexample :
    process_link []
        { href := "downloadIxServlet?id=1",
          text := "PDF: Diese Datei anzeigen (2 Seiten)" } = [] ∧
    "PDF: Diese Datei anzeigen (2 Seiten)" ≠ "" ∧
    "PDF: Diese Datei anzeigen (2 Seiten)" ≠ "Diese Datei anzeigen" ∧
    ¬ ("PDF: Diese Datei anzeigen (2 Seiten)".length < 5) := by
  decide

/-- Once the title is set, the fallback loop returns it together with the
first later non-metadata line longer than ten characters. -/
theorem altScan_titled (title : String) (h : title ≠ "") (lines : List String) :
    altScan title lines =
      (title,
        match lines.find? (fun l => !(altSkipLine l) && decide (10 < l.length)) with
        | some c => (⟨c.toList.take 5000⟩ : String)
        | none => "") := by
  induction lines with
  | nil => simp [altScan, List.find?]
  | cons l rest ih =>
      by_cases hs : altSkipLine l = true
      · have h1 : altScan title (l :: rest) = altScan title rest := by
          simp [altScan, hs]
        have h2 : List.find? (fun l => !(altSkipLine l) && decide (10 < l.length))
              (l :: rest) =
            List.find? (fun l => !(altSkipLine l) && decide (10 < l.length)) rest := by
          rw [List.find?_cons]
          simp [hs]
        rw [h1, ih, h2]
      · by_cases hlen : 10 < l.length
        · have h1 : altScan title (l :: rest) =
              (title, (⟨l.toList.take 5000⟩ : String)) := by
            simp [altScan, hs, hlen, h]
          have h2 : List.find? (fun l => !(altSkipLine l) && decide (10 < l.length))
                (l :: rest) = some l := by
            rw [List.find?_cons]
            simp [hs, hlen]
          rw [h1, h2]
        · have h1 : altScan title (l :: rest) = altScan title rest := by
            simp [altScan, hs, hlen, h]
          have h2 : List.find? (fun l => !(altSkipLine l) && decide (10 < l.length))
                (l :: rest) =
              List.find? (fun l => !(altSkipLine l) && decide (10 < l.length)) rest := by
            rw [List.find?_cons]
            simp [hlen]
          rw [h1, ih, h2]

/-- A title candidate is a non-empty string, so the loop switches state. -/
theorem take500_ne_empty (l : String) (h : 5 < l.length) :
    (⟨l.toList.take 500⟩ : String) ≠ "" := by
  intro heq
  have hdata : l.toList.take 500 = [] := congrArg String.data heq
  rcases List.take_eq_nil_iff.mp hdata with h0 | h0
  · omega
  · rw [String.length, show l.data = l.toList from rfl, h0] at h
    simp at h

/-- The whole fallback title/content loop: the title is the first
non-metadata line longer than five characters (truncated to 500), the
content the first following non-metadata line longer than ten (truncated
to 5000). -/
theorem altScan_start (lines : List String) :
    altScan "" lines =
      match lines.dropWhile
          (fun l => !(!(altSkipLine l) && decide (5 < l.length))) with
      | [] => ("", "")
      | t :: rest =>
          ((⟨t.toList.take 500⟩ : String),
            match rest.find?
                (fun l => !(altSkipLine l) && decide (10 < l.length)) with
            | some c => (⟨c.toList.take 5000⟩ : String)
            | none => "") := by
  induction lines with
  | nil => simp [altScan, List.dropWhile]
  | cons l rest ih =>
      by_cases hs : altSkipLine l = true
      · have h1 : altScan "" (l :: rest) = altScan "" rest := by
          simp [altScan, hs]
        have h2 : List.dropWhile
              (fun l => !(!(altSkipLine l) && decide (5 < l.length))) (l :: rest) =
            List.dropWhile
              (fun l => !(!(altSkipLine l) && decide (5 < l.length))) rest := by
          rw [List.dropWhile_cons]
          simp [hs]
        rw [h1, ih, h2]
      · by_cases hlen : 5 < l.length
        · have h1 : altScan "" (l :: rest) =
              altScan (⟨l.toList.take 500⟩ : String) rest := by
            simp [altScan, hs, hlen]
          have h2 : List.dropWhile
                (fun l => !(!(altSkipLine l) && decide (5 < l.length))) (l :: rest) =
              l :: rest := by
            rw [List.dropWhile_cons]
            simp [hs, hlen]
          rw [h1, altScan_titled _ (take500_ne_empty l hlen) rest, h2]
        · have h1 : altScan "" (l :: rest) = altScan "" rest := by
            simp [altScan, hs, hlen]
          have h2 : List.dropWhile
                (fun l => !(!(altSkipLine l) && decide (5 < l.length))) (l :: rest) =
              List.dropWhile
                (fun l => !(!(altSkipLine l) && decide (5 < l.length))) rest := by
            rw [List.dropWhile_cons]
            simp [hlen]
          rw [h1, ih, h2]

/-- One fallback item per punkt-marker occurrence, carrying that
occurrence's number. -/
theorem altSections_shape (cs : List Char) (ms : List (Nat × Nat)) :
    (altSections cs ms).length = ms.length ∧
    (altSections cs ms).map RawItem.punkt = ms.map Prod.snd := by
  induction ms with
  | nil => simp [altSections]
  | cons m rest ih =>
      rcases rest with _ | ⟨m2, rest2⟩
      · rcases m with ⟨s, v⟩
        simp [altSections, mkAltItem]
      · rcases m with ⟨s, v⟩
        rcases ih with ⟨ih1, ih2⟩
        constructor
        · simp [altSections, ih1]
        · simp [altSections, mkAltItem, ih2]

/-- C9: the fallback runs exactly when the structural parse yields zero
items; it produces one item per punkt-marker occurrence in the plain
text, keyed by the matched number, with title and content assigned by the
first-qualifying-line heuristic. -/
theorem fallback_extractor_contract (primary : List RawItem) (text : String)
    (lines : List String) :
    (primary ≠ [] → choose_items primary text = primary) ∧
    choose_items [] text = extract_items_alternative text ∧
    (extract_items_alternative text).length =
      (punktFinditer text.toList 0).length ∧
    (extract_items_alternative text).map RawItem.punkt =
      (punktFinditer text.toList 0).map Prod.snd ∧
    altScan "" lines =
      (match lines.dropWhile
          (fun l => !(!(altSkipLine l) && decide (5 < l.length))) with
      | [] => ("", "")
      | t :: rest =>
          ((⟨t.toList.take 500⟩ : String),
            match rest.find?
                (fun l => !(altSkipLine l) && decide (10 < l.length)) with
            | some c => (⟨c.toList.take 5000⟩ : String)
            | none => "")) := by
  refine ⟨fun h => ?_, rfl, ?_, ?_, altScan_start lines⟩
  · simp [choose_items, h]
  · exact (altSections_shape text.toList (punktFinditer text.toList 0)).1
  · exact (altSections_shape text.toList (punktFinditer text.toList 0)).2

theorem fallback_extractor_contract_witness :
    choose_items
        [{ punkt := 1, category := "", title := "t", content := "",
           attachments := [], hasAttachments := false }] "Pkt.: 9" =
      [{ punkt := 1, category := "", title := "t", content := "",
         attachments := [], hasAttachments := false }] :=
  (fallback_extractor_contract
    [{ punkt := 1, category := "", title := "t", content := "",
       attachments := [], hasAttachments := false }] "Pkt.: 9" []).1
    (by decide)

/-- A stopped scan processes no further rows. -/
theorem scanRows_stopped (fromD toD : Option MDate) (l : List EdRec)
    (st : ScanState) (h : st.stop = true) : scanRows fromD toD l st = st := by
  cases l with
  | nil => rfl
  | cons ed rest => simp [scanRows, h]

/-- Row processing is compositional across page boundaries. -/
theorem scanRows_append (fromD toD : Option MDate) (a : List EdRec) :
    ∀ (b : List EdRec) (st : ScanState),
      scanRows fromD toD (a ++ b) st =
        scanRows fromD toD b (scanRows fromD toD a st) := by
  induction a with
  | nil => intro b st; rfl
  | cons ed rest ih =>
      intro b st
      by_cases h0 : st.stop = true
      · rw [scanRows_stopped fromD toD ((ed :: rest) ++ b) st h0,
          scanRows_stopped fromD toD (ed :: rest) st h0,
          scanRows_stopped fromD toD b st h0]
      · rw [List.cons_append]
        simp only [scanRows]
        rw [if_neg h0, if_neg h0]
        by_cases h1 : ed.key ∈ st.seen
        · rw [if_pos h1, if_pos h1]
          exact ih b st
        · rw [if_neg h1, if_neg h1]
          by_cases h2 : afterToDate toD ed = true
          · rw [if_pos h2, if_pos h2]
            exact ih b _
          · rw [if_neg h2, if_neg h2]
            by_cases h3 : beforeFromDate fromD ed = true
            · rw [if_pos h3, if_pos h3]
              exact (scanRows_stopped fromD toD b _ rfl).symm
            · rw [if_neg h3, if_neg h3]
              exact ih b _

/-- Within the page budget and with non-empty pages, the paged loop equals
one pass over the concatenated rows. -/
theorem scanPages_eq_flatten (fromD toD : Option MDate)
    (pages : List (List EdRec)) :
    ∀ (n : Nat) (st : ScanState), pages.length ≤ n → (∀ p ∈ pages, p ≠ []) →
      scanPages fromD toD pages n st = scanRows fromD toD pages.flatten st := by
  induction pages with
  | nil => intro n st _ _; cases n <;> rfl
  | cons page rest ih =>
      intro n st hlen hne
      cases n with
      | zero => simp at hlen
      | succ m =>
          simp only [scanPages]
          by_cases h0 : st.stop = true
          · rw [if_pos h0, List.flatten_cons, scanRows_append,
              scanRows_stopped fromD toD page st h0,
              scanRows_stopped fromD toD rest.flatten st h0]
          · rw [if_neg h0]
            have hpage : page ≠ [] := hne page (List.mem_cons_self _ _)
            rw [if_neg (by simpa [List.isEmpty_iff] using hpage)]
            rw [List.flatten_cons, scanRows_append]
            by_cases h1 : (scanRows fromD toD page st).stop = true
            · rw [if_pos h1, scanRows_stopped fromD toD rest.flatten _ h1]
            · rw [if_neg h1]
              exact ih m _ (by simpa using hlen)
                (fun p hp => hne p (List.mem_cons_of_mem _ hp))

/-- Lexicographic transitivity used by the early stop: a row no newer than
one that precedes the lower bound also precedes the lower bound. -/
theorem MDate.ltb_trans_of_ge (p pr f : MDate)
    (h1 : MDate.ltb p pr = false) (h2 : MDate.ltb p f = true) :
    MDate.ltb pr f = true := by
  simp only [MDate.ltb, Bool.or_eq_true, Bool.and_eq_true, decide_eq_true_eq,
    Bool.or_eq_false_iff, Bool.and_eq_false_iff, decide_eq_false_iff_not] at *
  omega

/-- The core of the in-window guarantee: with a fresh seen set, pairwise
distinct keys, fully parsed dates and newest-first order, the row loop
appends exactly the in-window rows. -/
theorem scanRows_filter (fromD toD : Option MDate) (rows : List EdRec) :
    ∀ st : ScanState, st.stop = false →
      (rows.map EdRec.key).Nodup →
      (∀ r ∈ rows, r.key ∉ st.seen) →
      (∀ r ∈ rows, r.published.isSome = true) →
      rows.Pairwise (fun a b => notNewerB a b = true) →
      (scanRows fromD toD rows st).editions =
        st.editions ++ rows.filter (inWindowB fromD toD) := by
  induction rows with
  | nil => intro st _ _ _ _ _; simp [scanRows]
  | cons ed rest ih =>
      intro st h0 hnodup hseen hsome hpair
      have hedseen : ed.key ∉ st.seen := hseen ed (List.mem_cons_self _ _)
      have hkeyrest : ed.key ∉ rest.map EdRec.key :=
        (List.nodup_cons.mp (by simpa using hnodup)).1
      have hseen1 : ∀ r ∈ rest, r.key ∉ ed.key :: st.seen := by
        intro r hr
        simp only [List.mem_cons]
        push_neg
        exact ⟨fun hk => hkeyrest (hk ▸ List.mem_map_of_mem EdRec.key hr),
          hseen r (List.mem_cons_of_mem _ hr)⟩
      simp only [scanRows]
      rw [if_neg (by simp [h0]), if_neg hedseen]
      by_cases h2 : afterToDate toD ed = true
      · rw [if_pos h2]
        have hwin : inWindowB fromD toD ed = false := by
          simp [inWindowB, h2]
        rw [List.filter_cons, hwin]
        simp only [Bool.false_eq_true, if_false]
        exact ih _ h0 (List.nodup_cons.mp (by simpa using hnodup)).2 hseen1
          (fun r hr => hsome r (List.mem_cons_of_mem _ hr))
          (List.pairwise_cons.mp hpair).2
      · rw [if_neg h2]
        by_cases h3 : beforeFromDate fromD ed = true
        · rw [if_pos h3]
          rcases hfrom : fromD with _ | f
          · subst hfrom
            simp [beforeFromDate] at h3
          · subst hfrom
            rcases hp : ed.published with _ | p
            · simp [beforeFromDate, hp] at h3
            · simp only [beforeFromDate, hp] at h3
              have hfil : (ed :: rest).filter (inWindowB (some f) toD) = [] := by
                rw [List.filter_eq_nil_iff]
                intro a ha
                rcases List.mem_cons.mp ha with rfl | ha
                · simp [inWindowB, beforeFromDate, hp, h3]
                · have hnn := (List.pairwise_cons.mp hpair).1 a ha
                  rcases hpa : a.published with _ | pa
                  · have := hsome a (List.mem_cons_of_mem _ ha)
                    rw [hpa] at this; simp at this
                  · simp only [notNewerB, hp, hpa, Bool.not_eq_true'] at hnn
                    have hlt : MDate.ltb pa f = true :=
                      MDate.ltb_trans_of_ge p pa f hnn h3
                    simp [inWindowB, beforeFromDate, hpa, hlt]
              rw [hfil, List.append_nil]
        · rw [if_neg h3]
          have hwin : inWindowB fromD toD ed = true := by
            simp only [inWindowB, Bool.and_eq_true, Bool.not_eq_true']
            exact ⟨by simpa using h2, by simpa using h3⟩
          rw [List.filter_cons, hwin]
          simp only [if_true]
          have hres := ih { st with seen := ed.key :: st.seen, editions := st.editions ++ [ed] } h0
            (List.nodup_cons.mp (by simpa using hnodup)).2 hseen1
            (fun r hr => hsome r (List.mem_cons_of_mem _ hr))
            (List.pairwise_cons.mp hpair).2
          rw [hres]
          simp

/-- The row loop maintains: emitted keys are distinct and all recorded in
the seen set. -/
theorem scanRows_keys_nodup (fromD toD : Option MDate) (l : List EdRec) :
    ∀ st : ScanState,
      ((st.editions.map EdRec.key).Nodup ∧ ∀ e ∈ st.editions, e.key ∈ st.seen) →
      (((scanRows fromD toD l st).editions.map EdRec.key).Nodup ∧
        ∀ e ∈ (scanRows fromD toD l st).editions,
          e.key ∈ (scanRows fromD toD l st).seen) := by
  induction l with
  | nil => intro st h; exact h
  | cons ed rest ih =>
      intro st h
      simp only [scanRows]
      by_cases h0 : st.stop = true
      · rw [if_pos h0]; exact h
      · rw [if_neg h0]
        by_cases h1 : ed.key ∈ st.seen
        · rw [if_pos h1]; exact ih st h
        · rw [if_neg h1]
          by_cases h2 : afterToDate toD ed = true
          · rw [if_pos h2]
            exact ih _ ⟨h.1, fun e he => List.mem_cons_of_mem _ (h.2 e he)⟩
          · rw [if_neg h2]
            by_cases h3 : beforeFromDate fromD ed = true
            · rw [if_pos h3]
              exact ⟨h.1, fun e he => List.mem_cons_of_mem _ (h.2 e he)⟩
            · rw [if_neg h3]
              refine ih _ ⟨?_, ?_⟩
              · rw [List.map_append]
                simp only [List.map_cons, List.map_nil]
                rw [List.nodup_append]
                refine ⟨h.1, List.nodup_singleton _, ?_⟩
                simp only [List.disjoint_singleton]
                intro hmem
                rcases List.mem_map.mp hmem with ⟨e, he, hke⟩
                exact h1 (hke ▸ h.2 e he)
              · intro e he
                rcases List.mem_append.mp he with he | he
                · exact List.mem_cons_of_mem _ (h.2 e he)
                · rcases List.mem_singleton.mp he with rfl
                  exact List.mem_cons_self _ _

theorem scanPages_keys_nodup (fromD toD : Option MDate)
    (pages : List (List EdRec)) :
    ∀ (n : Nat) (st : ScanState),
      ((st.editions.map EdRec.key).Nodup ∧ ∀ e ∈ st.editions, e.key ∈ st.seen) →
      (((scanPages fromD toD pages n st).editions.map EdRec.key).Nodup ∧
        ∀ e ∈ (scanPages fromD toD pages n st).editions,
          e.key ∈ (scanPages fromD toD pages n st).seen) := by
  induction pages with
  | nil => intro n st h; cases n <;> exact h
  | cons page rest ih =>
      intro n st h
      cases n with
      | zero => exact h
      | succ m =>
          simp only [scanPages]
          by_cases h0 : st.stop = true
          · rw [if_pos h0]; exact h
          · rw [if_neg h0]
            by_cases hp : page.isEmpty = true
            · rw [if_pos hp]; exact h
            · rw [if_neg hp]
              have h' := scanRows_keys_nodup fromD toD page st h
              by_cases h1 : (scanRows fromD toD page st).stop = true
              · rw [if_pos h1]; exact h'
              · rw [if_neg h1]; exact ih m _ h'

/-- C2 (amended): the Edition Scanner never returns the same edition id
twice; and provided the archive delivers at most ten non-empty pages,
every row's date parses, ids are pairwise distinct, and rows arrive
newest-first, it returns exactly the rows inside the `[fromDate, toDate]`
window.  Mechanism, unconditionally: a row after `toDate` is skipped
while the scan continues, the first surviving row before `fromDate` stops
the scan (only the seen set is updated), and a stopped scan accepts no
further rows. -/
theorem edition_scanner_window (pages : List (List EdRec))
    (fromD toD : Option MDate) (st : ScanState) (ed : EdRec)
    (rest : List EdRec) :
    ((discover_editions pages fromD toD).map EdRec.key).Nodup ∧
    (pages.length ≤ 10 → (∀ p ∈ pages, p ≠ []) →
      (pages.flatten.map EdRec.key).Nodup →
      (∀ r ∈ pages.flatten, r.published.isSome = true) →
      pages.flatten.Pairwise (fun a b => notNewerB a b = true) →
      discover_editions pages fromD toD =
        pages.flatten.filter (inWindowB fromD toD)) ∧
    (st.stop = false → ed.key ∉ st.seen → afterToDate toD ed = true →
      scanRows fromD toD (ed :: rest) st =
        scanRows fromD toD rest { st with seen := ed.key :: st.seen }) ∧
    (st.stop = false → ed.key ∉ st.seen → afterToDate toD ed = false →
      beforeFromDate fromD ed = true →
      scanRows fromD toD (ed :: rest) st =
        { st with seen := ed.key :: st.seen, stop := true }) ∧
    (st.stop = true → scanRows fromD toD rest st = st) := by
  refine ⟨?_, ?_, ?_, ?_, fun h => scanRows_stopped fromD toD rest st h⟩
  · exact (scanPages_keys_nodup fromD toD pages 10 ⟨[], [], false⟩
      (by simp)).1
  · intro hlen hne hnodup hsome hpair
    unfold discover_editions
    rw [scanPages_eq_flatten fromD toD pages 10 _ hlen hne]
    have hfil := scanRows_filter fromD toD pages.flatten ⟨[], [], false⟩ rfl
      hnodup (by simp) hsome hpair
    simpa using hfil
  · intro h0 h1 h2
    simp only [scanRows]
    rw [if_neg (by simp [h0]), if_neg h1, if_pos h2]
  · intro h0 h1 h2 h3
    simp only [scanRows]
    rw [if_neg (by simp [h0]), if_neg h1, if_neg (by simp [h2]), if_pos h3]

theorem edition_scanner_window_witness :
    discover_editions
        [[{ year := 2025, stueck := 2, title := "MTB 2/2025", url := "u2",
            published := some ⟨2025, 6, 1⟩, isSpecial := false }],
         [{ year := 2025, stueck := 1, title := "MTB 1/2025", url := "u1",
            published := some ⟨2025, 1, 1⟩, isSpecial := false }]]
        (some ⟨2025, 3, 1⟩) none =
      ([[{ year := 2025, stueck := 2, title := "MTB 2/2025", url := "u2",
            published := some ⟨2025, 6, 1⟩, isSpecial := false }],
         [{ year := 2025, stueck := 1, title := "MTB 1/2025", url := "u1",
            published := some ⟨2025, 1, 1⟩, isSpecial := false }]] :
          List (List EdRec)).flatten.filter
        (inWindowB (some ⟨2025, 3, 1⟩) none) :=
  (edition_scanner_window
    [[{ year := 2025, stueck := 2, title := "MTB 2/2025", url := "u2",
        published := some ⟨2025, 6, 1⟩, isSpecial := false }],
     [{ year := 2025, stueck := 1, title := "MTB 1/2025", url := "u1",
        published := some ⟨2025, 1, 1⟩, isSpecial := false }]]
    (some ⟨2025, 3, 1⟩) none ⟨[], [], false⟩
    { year := 2025, stueck := 1, title := "", url := "", published := none,
      isSpecial := false } []).2.1
    (by decide) (by decide) (by decide) (by decide) (by decide)

/-- C2, as frozen, is refuted: over an archive that is *not* sorted
newest-first, the early stop drops an in-window edition — the scan
returns nothing although the second row lies inside the window. -/
theorem edition_scanner_window_counterexample :
    discover_editions
        [[{ year := 2025, stueck := 2, title := "MTB 2/2025", url := "u2",
            published := some ⟨2025, 1, 1⟩, isSpecial := false },
          { year := 2025, stueck := 3, title := "MTB 3/2025", url := "u3",
            published := some ⟨2025, 6, 1⟩, isSpecial := false }]]
        (some ⟨2025, 3, 1⟩) none = [] ∧
    inWindowB (some ⟨2025, 3, 1⟩) none
        { year := 2025, stueck := 3, title := "MTB 3/2025", url := "u3",
          published := some ⟨2025, 6, 1⟩, isSpecial := false } = true := by
  decide

theorem afterToDate_none (toD : Option MDate) (ed : EdRec)
    (h : ed.published = none) : afterToDate toD ed = false := by
  cases toD <;> simp [afterToDate, h]

theorem beforeFromDate_none (fromD : Option MDate) (ed : EdRec)
    (h : ed.published = none) : beforeFromDate fromD ed = false := by
  cases fromD <;> simp [beforeFromDate, h]

/-- Over rows with no parsed date, the row loop ignores the window. -/
theorem scanRows_null (fromD toD : Option MDate) (l : List EdRec) :
    (∀ r ∈ l, r.published = none) →
    ∀ st : ScanState, scanRows fromD toD l st = scanRows none none l st := by
  induction l with
  | nil => intro _ st; rfl
  | cons ed rest ih =>
      intro h st
      have hed := h ed (List.mem_cons_self _ _)
      have ih' := ih (fun r hr => h r (List.mem_cons_of_mem _ hr))
      simp only [scanRows]
      rw [afterToDate_none toD ed hed, afterToDate_none none ed hed,
        beforeFromDate_none fromD ed hed, beforeFromDate_none none ed hed]
      by_cases h0 : st.stop = true
      · rw [if_pos h0, if_pos h0]
      · rw [if_neg h0, if_neg h0]
        by_cases h1 : ed.key ∈ st.seen
        · rw [if_pos h1, if_pos h1, ih' st]
        · rw [if_neg h1, if_neg h1]
          simp only [Bool.false_eq_true, if_false]
          rw [ih' _]

theorem scanPages_null (fromD toD : Option MDate) (pages : List (List EdRec)) :
    (∀ p ∈ pages, ∀ r ∈ p, r.published = none) →
    ∀ (n : Nat) (st : ScanState),
      scanPages fromD toD pages n st = scanPages none none pages n st := by
  induction pages with
  | nil => intro _ n st; cases n <;> rfl
  | cons page rest ih =>
      intro h n st
      cases n with
      | zero => rfl
      | succ m =>
          simp only [scanPages]
          rw [scanRows_null fromD toD page (h page (List.mem_cons_self _ _)) st]
          have ih' := ih (fun p hp => h p (List.mem_cons_of_mem _ hp))
          by_cases h0 : st.stop = true
          · rw [if_pos h0, if_pos h0]
          · rw [if_neg h0, if_neg h0]
            by_cases hp : page.isEmpty = true
            · rw [if_pos hp, if_pos hp]
            · rw [if_neg hp, if_neg hp]
              by_cases h1 : (scanRows none none page st).stop = true
              · rw [if_pos h1, if_pos h1]
              · rw [if_neg h1, if_neg h1, ih' m _]

/-- C10: a row whose published date failed to parse passes both window
tests, is accepted (once per run) even when `from_date` or `to_date` is
set, never triggers the early stop, and a scan whose rows all lack dates
behaves as if no window were given. -/
theorem null_published_rows_accepted (fromD toD : Option MDate)
    (st : ScanState) (ed : EdRec) (rest : List EdRec)
    (pages : List (List EdRec)) :
    (ed.published = none →
      afterToDate toD ed = false ∧ beforeFromDate fromD ed = false) ∧
    (st.stop = false → ed.key ∉ st.seen → ed.published = none →
      scanRows fromD toD (ed :: rest) st =
        scanRows fromD toD rest
          { st with seen := ed.key :: st.seen,
                    editions := st.editions ++ [ed] }) ∧
    ((∀ p ∈ pages, ∀ r ∈ p, r.published = none) →
      discover_editions pages fromD toD = discover_editions pages none none) := by
  refine ⟨fun h => ⟨afterToDate_none toD ed h, beforeFromDate_none fromD ed h⟩,
    ?_, ?_⟩
  · intro h0 h1 h2
    simp only [scanRows]
    rw [if_neg (by simp [h0]), if_neg h1, afterToDate_none toD ed h2,
      beforeFromDate_none fromD ed h2]
    simp only [Bool.false_eq_true, if_false]
  · intro h
    unfold discover_editions
    rw [scanPages_null fromD toD pages h 10 _]

theorem null_published_rows_accepted_witness :
    discover_editions
        [[{ year := 2025, stueck := 5, title := "MTB 5/2025", url := "u5",
            published := none, isSpecial := false }]]
        (some ⟨2025, 3, 1⟩) (some ⟨2025, 5, 1⟩) =
      discover_editions
        [[{ year := 2025, stueck := 5, title := "MTB 5/2025", url := "u5",
            published := none, isSpecial := false }]] none none :=
  (null_published_rows_accepted (some ⟨2025, 3, 1⟩) (some ⟨2025, 5, 1⟩)
    ⟨[], [], false⟩
    { year := 2025, stueck := 5, title := "MTB 5/2025", url := "u5",
      published := none, isSpecial := false } []
    [[{ year := 2025, stueck := 5, title := "MTB 5/2025", url := "u5",
        published := none, isSpecial := false }]]).2.2 (by decide)

theorem keyGeb_refl (a : DbEdition) : keyGeb a a = true := by
  simp [keyGeb]

theorem keyGeb_total (a b : DbEdition) : keyGeb a b = true ∨ keyGeb b a = true := by
  simp only [keyGeb, Bool.or_eq_true, Bool.and_eq_true, decide_eq_true_eq]
  omega

theorem keyGeb_trans (a b c : DbEdition) (h1 : keyGeb a b = true)
    (h2 : keyGeb b c = true) : keyGeb a c = true := by
  simp only [keyGeb, Bool.or_eq_true, Bool.and_eq_true, decide_eq_true_eq] at *
  omega

theorem insertDesc_perm (e : DbEdition) (l : List DbEdition) :
    (insertDesc e l).Perm (e :: l) := by
  induction l with
  | nil => exact List.Perm.refl _
  | cons x xs ih =>
      simp only [insertDesc]
      by_cases h : keyGeb e x = true
      · rw [if_pos h]
      · rw [if_neg h]
        exact (ih.cons x).trans (List.Perm.swap e x xs)

theorem sortDesc_perm (db : List DbEdition) : (sortDesc db).Perm db := by
  induction db with
  | nil => exact List.Perm.refl _
  | cons x xs ih =>
      simp only [sortDesc, List.foldr_cons]
      exact (insertDesc_perm x _).trans ((ih.cons x).trans (List.Perm.refl _))

theorem insertDesc_sorted (e : DbEdition) (l : List DbEdition)
    (h : l.Pairwise (fun a b => keyGeb a b = true)) :
    (insertDesc e l).Pairwise (fun a b => keyGeb a b = true) := by
  induction l with
  | nil => simp [insertDesc]
  | cons x xs ih =>
      rcases List.pairwise_cons.mp h with ⟨hx, hxs⟩
      simp only [insertDesc]
      by_cases hk : keyGeb e x = true
      · rw [if_pos hk]
        refine List.pairwise_cons.mpr ⟨?_, h⟩
        intro b hb
        rcases List.mem_cons.mp hb with rfl | hb
        · exact hk
        · exact keyGeb_trans e x b hk (hx b hb)
      · rw [if_neg hk]
        refine List.pairwise_cons.mpr ⟨?_, ih hxs⟩
        intro b hb
        have hb' := (insertDesc_perm e xs).mem_iff.mp hb
        rcases List.mem_cons.mp hb' with rfl | hb'
        · rcases keyGeb_total x b with h' | h'
          · exact h'
          · exact absurd h' hk
        · exact hx b hb'

theorem sortDesc_sorted (db : List DbEdition) :
    (sortDesc db).Pairwise (fun a b => keyGeb a b = true) := by
  induction db with
  | nil => simp [sortDesc]
  | cons x xs ih =>
      simp only [sortDesc, List.foldr_cons]
      exact insertDesc_sorted x _ ih

/-- In a descending-sorted list, the first row satisfying a predicate is
maximal among all rows satisfying it. -/
theorem find?_pairwise_ge (l : List DbEdition) (p : DbEdition → Bool)
    (w : DbEdition) (hsort : l.Pairwise (fun a b => keyGeb a b = true)) :
    l.find? p = some w → ∀ e ∈ l, p e = true → keyGeb w e = true := by
  induction l with
  | nil => intro hfind; simp [List.find?] at hfind
  | cons x xs ih =>
      intro hfind e he hpe
      rcases List.pairwise_cons.mp hsort with ⟨hx, hxs⟩
      rw [List.find?_cons] at hfind
      cases hp : p x with
      | true =>
          rw [hp] at hfind
          have hw : some x = some w := hfind
          injection hw with hw
          subst hw
          rcases List.mem_cons.mp he with rfl | he
          · exact keyGeb_refl _
          · exact hx e he
      | false =>
          rw [hp] at hfind
          have hfind' : List.find? p xs = some w := hfind
          rcases List.mem_cons.mp he with rfl | he
          · rw [hpe] at hp; cases hp
          · exact ih hxs hfind' e he hpe

/-- C3 (amended): the repository hands editions back in descending
`(year, stueck)` order; the watermark is the first such edition with both
timestamps set and is maximal among fully processed editions; the scan
lower bound is the watermark's published date when the watermark exists
*and has one*, and 30 days before now when there is no watermark *or its
published date is unset*; and the sync scrape phase processes exactly the
unscraped editions strictly newer than the watermark, touching neither
the watermark nor anything older. -/
theorem sync_watermark_contract (db : List DbEdition) (now : MDate)
    (w : DbEdition) :
    (get_all_editions db).Perm db ∧
    (get_all_editions db).Pairwise (fun a b => keyGeb a b = true) ∧
    (latest_processed db = none → sync_from_date db now = now.subDays 30) ∧
    (latest_processed db = some w →
      w.scrapedAt.isSome = true ∧ w.analyzedAt.isSome = true ∧
      (∀ p, w.published = some p → sync_from_date db now = p) ∧
      (w.published = none → sync_from_date db now = now.subDays 30) ∧
      (∀ e ∈ db, e.scrapedAt.isSome = true → e.analyzedAt.isSome = true →
        keyGeb w e = true) ∧
      sync_scrape_list db = (get_unscraped_editions db).filter (newerThan w) ∧
      w ∉ sync_scrape_list db ∧
      (∀ e ∈ sync_scrape_list db,
        e.scrapedAt = none ∧ newerThan w e = true)) := by
  refine ⟨sortDesc_perm db, sortDesc_sorted db, ?_, ?_⟩
  · intro hw
    simp [sync_from_date, hw]
  · intro hw
    have hpw := List.find?_some hw
    simp only [Bool.and_eq_true] at hpw
    refine ⟨hpw.1, hpw.2, ?_, ?_, ?_, ?_, ?_, ?_⟩
    · intro p hp
      simp [sync_from_date, hw, hp]
    · intro hp
      simp [sync_from_date, hw, hp]
    · intro e he hse hae
      have hmem : e ∈ get_all_editions db := (sortDesc_perm db).mem_iff.mpr he
      exact find?_pairwise_ge (get_all_editions db) _ w (sortDesc_sorted db)
        hw e hmem (by simp [hse, hae])
    · simp [sync_scrape_list, hw]
    · intro hmem
      rw [sync_scrape_list, hw] at hmem
      have := List.of_mem_filter hmem
      simp [newerThan] at this
    · intro e hmem
      rw [sync_scrape_list, hw] at hmem
      refine ⟨?_, List.of_mem_filter hmem⟩
      have hmem2 : e ∈ get_unscraped_editions db := List.mem_of_mem_filter hmem
      have hmem3 : e ∈ db.filter (fun r => r.scrapedAt.isNone) :=
        (sortDesc_perm _).mem_iff.mp hmem2
      have := List.of_mem_filter hmem3
      simpa [Option.isNone_iff_eq_none] using this

theorem sync_watermark_contract_witness :
    sync_from_date
        [{ year := 2025, stueck := 2, title := "t2", url := "u2",
           published := some ⟨2025, 6, 1⟩, scrapedAt := none, analyzedAt := none },
         { year := 2025, stueck := 1, title := "t1", url := "u1",
           published := some ⟨2025, 1, 15⟩, scrapedAt := some 1,
           analyzedAt := some 2 }] ⟨2025, 12, 31⟩ = ⟨2025, 1, 15⟩ ∧
    sync_scrape_list
        [{ year := 2025, stueck := 2, title := "t2", url := "u2",
           published := some ⟨2025, 6, 1⟩, scrapedAt := none, analyzedAt := none },
         { year := 2025, stueck := 1, title := "t1", url := "u1",
           published := some ⟨2025, 1, 15⟩, scrapedAt := some 1,
           analyzedAt := some 2 }] =
      (get_unscraped_editions
        [{ year := 2025, stueck := 2, title := "t2", url := "u2",
           published := some ⟨2025, 6, 1⟩, scrapedAt := none, analyzedAt := none },
         { year := 2025, stueck := 1, title := "t1", url := "u1",
           published := some ⟨2025, 1, 15⟩, scrapedAt := some 1,
           analyzedAt := some 2 }]).filter
        (newerThan
          { year := 2025, stueck := 1, title := "t1", url := "u1",
            published := some ⟨2025, 1, 15⟩, scrapedAt := some 1,
            analyzedAt := some 2 }) :=
  ⟨((sync_watermark_contract
      [{ year := 2025, stueck := 2, title := "t2", url := "u2",
         published := some ⟨2025, 6, 1⟩, scrapedAt := none, analyzedAt := none },
       { year := 2025, stueck := 1, title := "t1", url := "u1",
         published := some ⟨2025, 1, 15⟩, scrapedAt := some 1,
         analyzedAt := some 2 }] ⟨2025, 12, 31⟩
      { year := 2025, stueck := 1, title := "t1", url := "u1",
        published := some ⟨2025, 1, 15⟩, scrapedAt := some 1,
        analyzedAt := some 2 }).2.2.2 (by decide)).2.2.1 ⟨2025, 1, 15⟩ rfl,
   ((sync_watermark_contract
      [{ year := 2025, stueck := 2, title := "t2", url := "u2",
         published := some ⟨2025, 6, 1⟩, scrapedAt := none, analyzedAt := none },
       { year := 2025, stueck := 1, title := "t1", url := "u1",
         published := some ⟨2025, 1, 15⟩, scrapedAt := some 1,
         analyzedAt := some 2 }] ⟨2025, 12, 31⟩
      { year := 2025, stueck := 1, title := "t1", url := "u1",
        published := some ⟨2025, 1, 15⟩, scrapedAt := some 1,
        analyzedAt := some 2 }).2.2.2 (by decide)).2.2.2.2.2.1⟩

/-- C3, as frozen, is refuted on a watermark without a published date: the
claim's "otherwise the watermark's published date is used" does not hold —
the code falls back to 30 days before now although a watermark exists. -/
theorem sync_watermark_counterexample :
    latest_processed
        [{ year := 2025, stueck := 1, title := "MTB 1/2025", url := "u",
           published := none, scrapedAt := some 1, analyzedAt := some 2 }] =
      some { year := 2025, stueck := 1, title := "MTB 1/2025", url := "u",
             published := none, scrapedAt := some 1, analyzedAt := some 2 } ∧
    sync_from_date
        [{ year := 2025, stueck := 1, title := "MTB 1/2025", url := "u",
           published := none, scrapedAt := some 1, analyzedAt := some 2 }]
        ⟨2025, 12, 31⟩ = ⟨2025, 12, 1⟩ ∧
    MDate.subDays ⟨2025, 12, 31⟩ 30 = ⟨2025, 12, 1⟩ := by
  decide

end MTB
